import Mathlib

/-!
# ecological-nlp-hub backend: a shallow embedding of `backend/main.go`

The Go program is a small HTTP server: two handlers serialise fixed in-memory
payloads as JSON, a logging wrapper records every request, and every other
path goes to a file server over an embedded file system.

The embedding has three layers.

* The data model and the functions of `main.go` (`writeJSON`,
  `handleConcordance`, `handleMetaOps`, `withLogging`, the route table of
  `main`) are translated line by line.  Package-level variables are threaded
  explicitly (`Globals`), the log is an output stream of records.
* The parts of the Go standard library the program calls (`encoding/json`,
  `net/http`'s response writer, `http.Error`, `ServeMux`, `http.FileServer`,
  `path.Clean`, `embed.FS`) are modelled from their documented behaviour, as
  far as the properties below need them.  Go strings are modelled as Lean
  strings, that is as well-formed Unicode text.
* A small reference JSON decoder is used to state what a response body
  means as a JSON document.
-/

set_option autoImplicit false

namespace Backend

/-! ## Data model (`main.go`, lines 12-60) -/

/-- Go struct `ConcordanceLine`; the JSON member names are the struct tags. -/
structure ConcordanceLine where
  Left : String
  Kw : String
  Right : String
  deriving DecidableEq, Repr

/-- Go struct `ConcordancePayload`. -/
structure ConcordancePayload where
  Keyword : String
  Lines : List ConcordanceLine
  deriving DecidableEq, Repr

/-- Go struct `MetaOpsMessage`. -/
structure MetaOpsMessage where
  Agent : String
  Title : String
  Detail : String
  When : String
  Badge : String
  deriving DecidableEq, Repr

/-- Go struct `MetaOpsCommit`; `Progress` is a Go `int`. -/
structure MetaOpsCommit where
  Branch : String
  Status : String
  Progress : Int
  Label : String
  deriving DecidableEq, Repr

/-- Go struct `MetaOpsCheck`. -/
structure MetaOpsCheck where
  Title : String
  Desc : String
  Ok : Bool
  deriving DecidableEq, Repr

/-- Go struct `MetaOpsPrompt`. -/
structure MetaOpsPrompt where
  Name : String
  Prompt : String
  Focus : String
  deriving DecidableEq, Repr

/-- Go struct `MetaOpsPayload`, fields in declaration order. -/
structure MetaOpsPayload where
  Edges : List String
  Messages : List MetaOpsMessage
  Commits : List MetaOpsCommit
  Checks : List MetaOpsCheck
  Prompts : List MetaOpsPrompt
  ExtensionNames : List String
  EnergySignal : String
  Status : String
  CacheStatus : String
  deriving DecidableEq, Repr

/-! ## The static payload store (`main.go`, lines 62-132) -/

/-- Package variable `concordanceLines`. -/
def concordanceLines : List ConcordanceLine :=
  [ ⟨"the historical study of", "language", "change reveals patterns"⟩,
    ⟨"a formal model of", "language", "structure was proposed"⟩,
    ⟨"children acquire their first", "language", "through social interaction"⟩,
    ⟨"the boundaries between", "language", "and dialect are fluid"⟩,
    ⟨"computational approaches to", "language", "processing have advanced"⟩,
    ⟨"signed and spoken", "language", "share deep structural"⟩,
    ⟨"every natural human", "language", "exhibits recursive syntax"⟩,
    ⟨"the politics of", "language", "policy affects education"⟩,
    ⟨"contact between any two", "language", "varieties produces creoles"⟩,
    ⟨"documentation of endangered", "language", "families remains urgent"⟩ ]

/-- Package variable `metaOps`. -/
def metaOps : MetaOpsPayload where
  Edges :=
    [ "LLM → Reasoning Loop",
      "Tool Call Circuit",
      "Ontological Prism Layer",
      "Meta-Abstraction Filter",
      "Subagent Feedback Bus" ]
  Messages :=
    [ ⟨"Expedite", "Roadmap pulse",
        "Healthy commits + tests are shipping ahead of the Vision S print.",
        "02:12", "Committed"⟩,
      ⟨"Guardian", "Architecture sanity check",
        "Ontology prisming still maps cleanly to the layered abstractions.",
        "02:09", "Aligned"⟩,
      ⟨"Navigator", "LLM / tool loop",
        "Inference cycles are hitting 8 edges with 92% success.",
        "01:58", "Stable"⟩ ]
  Commits :=
    [ ⟨"main", "healthy", 78, "Release cadence"⟩,
      ⟨"metaops", "monitoring", 42, "Roadmap stretch"⟩,
      ⟨"docs", "review", 63, "Architecture living doc"⟩ ]
  Checks :=
    [ ⟨"Roadmap tractability", "Milestones align with current compute / steward budgets.", true⟩,
      ⟨"Architecture coherence", "Layers still reflect corpus stewardship → governance.", true⟩,
      ⟨"High-fidelity requests", "Adaptive precision toggles have guardrails.", false⟩ ]
  Prompts :=
    [ ⟨"Design System Guardian", "Ensure every interface mirrors the ontology prism.", "Consistency"⟩,
      ⟨"Commit Health Coach", "Highlight roadblocks and get commits green.", "Progress"⟩,
      ⟨"MetaOps Conductor", "Keep the CTO channel grounded in actionable insights.", "Clarity"⟩ ]
  ExtensionNames :=
    [ "Concordance Helix",
      "Morpheme Forge",
      "Collocate Gravity",
      "Diachronic Strata",
      "Syntactic Cartography",
      "Frequency Thermograph" ]
  EnergySignal := "green"
  Status := "live"
  CacheStatus := "fresh"

/-- The package-level variables a handler can reach.  Go package variables are
mutable, so they are threaded through every handler as explicit state. -/
structure Globals where
  concordanceLines : List ConcordanceLine
  metaOps : MetaOpsPayload
  deriving DecidableEq, Repr

/-- The package variables as initialised at program start. -/
def initGlobals : Globals := ⟨concordanceLines, metaOps⟩

/-! ## Values handed to `encoding/json` -/

/-- The Go values `writeJSON` can receive through its `interface{}` parameter,
as far as `encoding/json` distinguishes them: strings, integers, booleans,
nil and non-nil slices, structs (their exported fields with the JSON names of
the tags, in declaration order), and values of a type the encoder rejects
(channels, functions, complex numbers), carrying the printed type. -/
inductive GoValue where
  | string (s : String)
  | int (n : Int)
  | bool (b : Bool)
  | nilSlice
  | slice (elems : List GoValue)
  | struct (fields : List (String × GoValue))
  | unsupported (typeName : String)
  deriving Repr

/-- Reflection view of a `ConcordanceLine`. -/
def ConcordanceLine.toGo (l : ConcordanceLine) : GoValue :=
  .struct [("left", .string l.Left), ("kw", .string l.Kw), ("right", .string l.Right)]

/-- Reflection view of a `ConcordancePayload`. -/
def ConcordancePayload.toGo (p : ConcordancePayload) : GoValue :=
  .struct [("keyword", .string p.Keyword), ("lines", .slice (p.Lines.map ConcordanceLine.toGo))]

/-- Reflection view of a `MetaOpsMessage`. -/
def MetaOpsMessage.toGo (m : MetaOpsMessage) : GoValue :=
  .struct [("agent", .string m.Agent), ("title", .string m.Title), ("detail", .string m.Detail),
    ("when", .string m.When), ("badge", .string m.Badge)]

/-- Reflection view of a `MetaOpsCommit`. -/
def MetaOpsCommit.toGo (c : MetaOpsCommit) : GoValue :=
  .struct [("branch", .string c.Branch), ("status", .string c.Status),
    ("progress", .int c.Progress), ("label", .string c.Label)]

/-- Reflection view of a `MetaOpsCheck`. -/
def MetaOpsCheck.toGo (c : MetaOpsCheck) : GoValue :=
  .struct [("title", .string c.Title), ("desc", .string c.Desc), ("ok", .bool c.Ok)]

/-- Reflection view of a `MetaOpsPrompt`. -/
def MetaOpsPrompt.toGo (p : MetaOpsPrompt) : GoValue :=
  .struct [("name", .string p.Name), ("prompt", .string p.Prompt), ("focus", .string p.Focus)]

/-- Reflection view of a `MetaOpsPayload`. -/
def MetaOpsPayload.toGo (p : MetaOpsPayload) : GoValue :=
  .struct [
    ("edges", .slice (p.Edges.map GoValue.string)),
    ("messages", .slice (p.Messages.map MetaOpsMessage.toGo)),
    ("commits", .slice (p.Commits.map MetaOpsCommit.toGo)),
    ("checks", .slice (p.Checks.map MetaOpsCheck.toGo)),
    ("prompts", .slice (p.Prompts.map MetaOpsPrompt.toGo)),
    ("extensionNames", .slice (p.ExtensionNames.map GoValue.string)),
    ("energySignal", .string p.EnergySignal),
    ("status", .string p.Status),
    ("cacheStatus", .string p.CacheStatus)]

/-! ## `encoding/json`: the encoder -/

/-- The double quote. -/
def quoteChar : Char := Char.ofNat 34

/-- The backslash. -/
def backslash : Char := Char.ofNat 92

/-- Lower-case hexadecimal digit of a number below 16. -/
def hexDigit (n : Nat) : Char :=
  if n < 10 then Char.ofNat (48 + n) else Char.ofNat (87 + n)

/-- How the encoder writes one character of a string.  An `Encoder` escapes
HTML by default, so `<`, `>` and `&` are written as `\u00XX` like the control
characters without a short form; U+2028 and U+2029 are escaped too. -/
def escapeChar (c : Char) : List Char :=
  if c = quoteChar ∨ c = backslash then [backslash, c]
  else if c.toNat = 8 then [backslash, 'b']
  else if c.toNat = 12 then [backslash, 'f']
  else if c.toNat = 10 then [backslash, 'n']
  else if c.toNat = 13 then [backslash, 'r']
  else if c.toNat = 9 then [backslash, 't']
  else if c.toNat < 32 ∨ c = '<' ∨ c = '>' ∨ c = '&' then
    [backslash, 'u', '0', '0', hexDigit (c.toNat / 16), hexDigit (c.toNat % 16)]
  else if c.toNat = 8232 then [backslash, 'u', '2', '0', '2', '8']
  else if c.toNat = 8233 then [backslash, 'u', '2', '0', '2', '9']
  else [c]

/-- A JSON string literal: the escaped characters between double quotes. -/
def appendString (s : String) : String :=
  String.mk (quoteChar :: (s.data.flatMap escapeChar ++ [quoteChar]))

mutual
/-- Encoder `json.Marshal`: the JSON text of a value, or the error text of
the first value the encoder rejects.  Struct members are written in field
order, a nil slice as `null`. -/
def marshal : GoValue → Except String String
  | .string s => .ok (appendString s)
  | .int n => .ok (toString n)
  | .bool b => .ok (if b then "true" else "false")
  | .nilSlice => .ok "null"
  | .slice elems => (marshalElems elems).map (fun s => "[" ++ s ++ "]")
  | .struct fields => (marshalFields fields).map (fun s => "\x7b" ++ s ++ "\x7d")
  | .unsupported t => .error ("json: unsupported type: " ++ t)
/-- The elements of an array, comma separated. -/
def marshalElems : List GoValue → Except String String
  | [] => .ok ""
  | [v] => marshal v
  | v :: vs => do
      let a ← marshal v
      let b ← marshalElems vs
      pure (a ++ "," ++ b)
/-- The members of an object, comma separated. -/
def marshalFields : List (String × GoValue) → Except String String
  | [] => .ok ""
  | [(k, v)] => (marshal v).map (fun s => appendString k ++ ":" ++ s)
  | (k, v) :: fs => do
      let a ← marshal v
      let b ← marshalFields fs
      pure (appendString k ++ ":" ++ a ++ "," ++ b)
end

/-! ## `net/http`: headers, response writer, `http.Error` -/

/-- Header map `http.Header`: canonical key to values. -/
abbrev Header := List (String × List String)

/-- A byte allowed in a header field name (an RFC 7230 token character). -/
def validHeaderFieldByte (c : Char) : Bool :=
  c.isAlphanum || "!#$%&*+-.^_|~".data.contains c || c == Char.ofNat 39 || c == Char.ofNat 96

/-- The letter-case pass of `textproto.CanonicalMIMEHeaderKey`: upper case at
the start and after a hyphen, lower case elsewhere. -/
def canonCase : Bool → List Char → List Char
  | _, [] => []
  | upper, c :: cs => (if upper then c.toUpper else c.toLower) :: canonCase (c == '-') cs

/-- Function `textproto.CanonicalMIMEHeaderKey`; a key holding a byte that is
not a token character is returned unchanged. -/
def canonicalMIMEHeaderKey (s : String) : String :=
  if s.data.all validHeaderFieldByte then String.mk (canonCase true s.data) else s

/-- Method `Header.Del`. -/
def Header.Del (h : Header) (key : String) : Header :=
  h.filter (fun kv => kv.1 != canonicalMIMEHeaderKey key)

/-- Method `Header.Set`: the key now holds the single value. -/
def Header.Set (h : Header) (key value : String) : Header :=
  h.Del key ++ [(canonicalMIMEHeaderKey key, [value])]

/-- Method `Header.Values`: all values of a key. -/
def Header.Values (h : Header) (key : String) : List String :=
  match h.find? (fun kv => kv.1 == canonicalMIMEHeaderKey key) with
  | some kv => kv.2
  | none => []

/-- An `http.ResponseWriter` as the handler sees it (the shape of
`httptest.ResponseRecorder`): the live header map, whether the status line
has gone out, and then the status, the headers that went out with it and the
body bytes written so far. -/
structure ResponseWriter where
  header : Header
  wroteHeader : Bool
  status : Nat
  sentHeader : Header
  body : String
  deriving DecidableEq, Repr

/-- The writer a handler is given for a new request. -/
def ResponseWriter.fresh : ResponseWriter := ⟨[], false, 0, [], ""⟩

/-- Statement `w.Header().Set(key, value)`.  The map stays writable after the
header has gone out, without effect on what was sent. -/
def ResponseWriter.setHeader (w : ResponseWriter) (key value : String) : ResponseWriter :=
  { w with header := w.header.Set key value }

/-- Statement `w.Header().Del(key)`. -/
def ResponseWriter.delHeader (w : ResponseWriter) (key : String) : ResponseWriter :=
  { w with header := w.header.Del key }

/-- Method `WriteHeader`: the first call fixes the status and sends the
header map as it is at that moment; later calls are ignored. -/
def ResponseWriter.WriteHeader (w : ResponseWriter) (code : Nat) : ResponseWriter :=
  if w.wroteHeader then w
  else { w with wroteHeader := true, status := code, sentHeader := w.header }

/-- Method `Write`: sends the header with status 200 if it has not gone out,
then appends the bytes to the body. -/
def ResponseWriter.Write (w : ResponseWriter) (b : String) : ResponseWriter :=
  let w1 := w.WriteHeader 200
  { w1 with body := w1.body ++ b }

/-- What the client receives. -/
structure Response where
  status : Nat
  header : Header
  body : String
  deriving DecidableEq, Repr

/-- The response once the handler has returned: a handler that wrote nothing
gets status 200 with the header map as it stands. -/
def ResponseWriter.result (w : ResponseWriter) : Response :=
  let w1 := w.WriteHeader 200
  ⟨w1.status, w1.sentHeader, w1.body⟩

/-- Constant `http.StatusInternalServerError`. -/
def StatusInternalServerError : Nat := 500

/-- Constant `http.StatusNotFound`. -/
def StatusNotFound : Nat := 404

/-- Function `http.Error`: drops `Content-Length`, forces a plain-text content
type, writes the status and then the message with `fmt.Fprintln`, that is
followed by a line feed. -/
def httpError (w : ResponseWriter) (error : String) (code : Nat) : ResponseWriter :=
  let w1 := w.delHeader "Content-Length"
  let w2 := w1.setHeader "Content-Type" "text/plain; charset=utf-8"
  let w3 := w2.setHeader "X-Content-Type-Options" "nosniff"
  let w4 := w3.WriteHeader code
  w4.Write (error ++ "\n")

/-- Method `(*json.Encoder).Encode` on an encoder over `w`: the value is
marshalled into a buffer first; on an error nothing is written and the
error is returned, otherwise the JSON text followed by a line feed is
written in one `Write`. -/
def Encoder.Encode (w : ResponseWriter) (v : GoValue) : ResponseWriter × Option String :=
  match marshal v with
  | .error e => (w, some e)
  | .ok s => (w.Write (s ++ "\n"), none)

/-! ## The functions of `main.go` -/

/-- Function `writeJSON` (lines 165-171). -/
def writeJSON (w : ResponseWriter) (v : GoValue) : ResponseWriter :=
  let w1 := w.setHeader "Content-Type" "application/json"
  let w2 := w1.setHeader "Cache-Control" "max-age=30"
  match Encoder.Encode w2 v with
  | (w3, some err) => httpError w3 err StatusInternalServerError
  | (w3, none) => w3

/-- An `*http.Request`, as far as handlers can inspect it. -/
structure Request where
  method : String
  requestURI : String
  path : String
  rawQuery : String
  header : Header
  body : String
  deriving DecidableEq, Repr

/-- What running a handler leaves behind: the response writer, the package
variables, and the records it sent to the log, oldest first. -/
structure Effect where
  w : ResponseWriter
  globals : Globals
  logged : List String
  deriving DecidableEq, Repr

/-- An `http.Handler`: from the request, the writer and the package variables
to their state afterwards and the log records emitted. -/
abbrev Handler := Request → ResponseWriter → Globals → Effect

/-- Function `handleConcordance` (lines 154-159); the request is not read. -/
def handleConcordance : Handler := fun _r w g =>
  ⟨writeJSON w (ConcordancePayload.toGo ⟨"language", g.concordanceLines⟩), g, []⟩

/-- Function `handleMetaOps` (lines 161-163); the request is not read. -/
def handleMetaOps : Handler := fun _r w g =>
  ⟨writeJSON w g.metaOps.toGo, g, []⟩

/-- The message `log.Printf("[%s] %s", r.Method, r.URL.Path)` formats.  The
logger puts a time stamp before it and a line feed after it. -/
def logRecord (r : Request) : String :=
  "[" ++ r.method ++ "] " ++ r.path

/-- Function `withLogging` (lines 173-178): log, then delegate. -/
def withLogging (h : Handler) : Handler := fun r w g =>
  let e := h r w g
  { e with logged := logRecord r :: e.logged }

/-! ## A reference JSON decoder

Used only to state what a response body is as a JSON document.  It reads
the JSON grammar with integer numbers (a fraction or an exponent is
rejected) and keeps object members in document order. -/

/-- A JSON document. -/
inductive JSON where
  | null
  | bool (b : Bool)
  | num (n : Int)
  | str (s : String)
  | arr (elems : List JSON)
  | obj (members : List (String × JSON))
  deriving Repr

/-- Member of an object by key (first occurrence). -/
def JSON.member (j : JSON) (key : String) : Option JSON :=
  match j with
  | .obj members => (members.find? (fun kv => kv.1 == key)).map Prod.snd
  | _ => none

/-- Elements of an array. -/
def JSON.elems? (j : JSON) : Option (List JSON) :=
  match j with
  | .arr elems => some elems
  | _ => none

/-- Skips JSON white space. -/
def skipWs : List Char → List Char
  | [] => []
  | c :: cs => if c = ' ' ∨ c.toNat = 10 ∨ c.toNat = 13 ∨ c.toNat = 9 then skipWs cs else c :: cs

/-- Value of a hexadecimal digit. -/
def hexVal (c : Char) : Option Nat :=
  if '0' ≤ c ∧ c ≤ '9' then some (c.toNat - 48)
  else if 'a' ≤ c ∧ c ≤ 'f' then some (c.toNat - 87)
  else if 'A' ≤ c ∧ c ≤ 'F' then some (c.toNat - 55)
  else none

/-- The character a one-letter escape stands for. -/
def unescape (c : Char) : Option Char :=
  if c = quoteChar then some quoteChar
  else if c = backslash then some backslash
  else if c = '/' then some '/'
  else if c = 'b' then some (Char.ofNat 8)
  else if c = 'f' then some (Char.ofNat 12)
  else if c = 'n' then some (Char.ofNat 10)
  else if c = 'r' then some (Char.ofNat 13)
  else if c = 't' then some (Char.ofNat 9)
  else none

/-- Reads a string literal after its opening quote; `acc` holds the decoded
characters so far, newest first. -/
def parseStringBody : List Char → List Char → Option (String × List Char)
  | _, [] => none
  | acc, c :: cs =>
    if c = quoteChar then some (String.mk acc.reverse, cs)
    else if c = backslash then
      match cs with
      | [] => none
      | e :: rest =>
        if e = 'u' then
          match rest with
          | a :: b :: c2 :: d :: rest2 =>
            match hexVal a, hexVal b, hexVal c2, hexVal d with
            | some x, some y, some z, some t =>
              parseStringBody (Char.ofNat (((x * 16 + y) * 16 + z) * 16 + t) :: acc) rest2
            | _, _, _, _ => none
          | _ => none
        else
          match unescape e with
          | some ch => parseStringBody (ch :: acc) rest
          | none => none
    else if c.toNat < 32 then none
    else parseStringBody (c :: acc) cs

/-- Reads decimal digits, accumulating their value. -/
def parseDigits : Nat → List Char → Nat × List Char
  | n, [] => (n, [])
  | n, c :: cs =>
    if '0' ≤ c ∧ c ≤ '9' then parseDigits (n * 10 + (c.toNat - 48)) cs else (n, c :: cs)

/-- Whether the text starts with a decimal digit. -/
def startsWithDigit : List Char → Bool
  | c :: _ => decide ('0' ≤ c ∧ c ≤ '9')
  | [] => false

/-- Whether a number goes on with a fraction or an exponent. -/
def startsFraction : List Char → Bool
  | c :: _ => decide (c = '.' ∨ c = 'e' ∨ c = 'E')
  | [] => false

/-- Reads an integer literal: an optional minus sign and digits. -/
def parseNumber (cs : List Char) : Option (JSON × List Char) :=
  let neg := cs.head? == some '-'
  let ds := if neg then cs.tail else cs
  if startsWithDigit ds then
    let r := parseDigits 0 ds
    if startsFraction r.2 then none
    else some (.num (if neg then - (r.1 : Int) else (r.1 : Int)), r.2)
  else none

mutual
/-- Reads one JSON value; `fuel` bounds nesting depth and list length. -/
def parseValue : Nat → List Char → Option (JSON × List Char)
  | 0, _ => none
  | fuel + 1, cs =>
    match skipWs cs with
    | [] => none
    | c :: rest =>
      if c = quoteChar then
        (parseStringBody [] rest).map (fun r => (JSON.str r.1, r.2))
      else if c = '[' then
        match skipWs rest with
        | [] => none
        | d :: rest2 => if d = ']' then some (.arr [], rest2)
            else (parseElems fuel (d :: rest2)).map (fun r => (JSON.arr r.1, r.2))
      else if c = Char.ofNat 123 then
        match skipWs rest with
        | [] => none
        | d :: rest2 => if d = Char.ofNat 125 then some (.obj [], rest2)
            else (parseMembers fuel (d :: rest2)).map (fun r => (JSON.obj r.1, r.2))
      else if c = 'n' then
        if rest.take 3 = ['u', 'l', 'l'] then some (.null, rest.drop 3) else none
      else if c = 't' then
        if rest.take 3 = ['r', 'u', 'e'] then some (.bool true, rest.drop 3) else none
      else if c = 'f' then
        if rest.take 4 = ['a', 'l', 's', 'e'] then some (.bool false, rest.drop 4) else none
      else parseNumber (c :: rest)
/-- Reads the elements of a non-empty array up to the closing bracket. -/
def parseElems : Nat → List Char → Option (List JSON × List Char)
  | 0, _ => none
  | fuel + 1, cs =>
    match parseValue fuel cs with
    | none => none
    | some (v, rest) =>
      match skipWs rest with
      | [] => none
      | d :: rest2 =>
        if d = ',' then (parseElems fuel rest2).map (fun r => (v :: r.1, r.2))
        else if d = ']' then some ([v], rest2)
        else none
/-- Reads the members of a non-empty object up to the closing brace. -/
def parseMembers : Nat → List Char → Option (List (String × JSON) × List Char)
  | 0, _ => none
  | fuel + 1, cs =>
    match skipWs cs with
    | [] => none
    | q :: rest =>
      if q = quoteChar then
        match parseStringBody [] rest with
        | none => none
        | some (k, rest1) =>
          match skipWs rest1 with
          | [] => none
          | col :: rest2 =>
            if col = ':' then
              match parseValue fuel rest2 with
              | none => none
              | some (v, rest3) =>
                match skipWs rest3 with
                | [] => none
                | d :: rest4 =>
                  if d = ',' then (parseMembers fuel rest4).map (fun r => ((k, v) :: r.1, r.2))
                  else if d = Char.ofNat 125 then some ([(k, v)], rest4)
                  else none
            else none
      else none
end

/-- Decodes a whole text as one JSON document. -/
def decodeJSON (s : String) : Option JSON :=
  match parseValue (s.data.length + 1) s.data with
  | none => none
  | some (v, rest) => if skipWs rest = [] then some v else none

/-! ## The JSON documents the payloads stand for

Written from the struct tags, independently of the encoder: the right-hand
sides the decoded response bodies are compared with. -/

/-- The JSON document of a concordance line. -/
def ConcordanceLine.toJSON (l : ConcordanceLine) : JSON :=
  .obj [("left", .str l.Left), ("kw", .str l.Kw), ("right", .str l.Right)]

/-- The JSON document of a concordance payload. -/
def ConcordancePayload.toJSON (p : ConcordancePayload) : JSON :=
  .obj [("keyword", .str p.Keyword), ("lines", .arr (p.Lines.map ConcordanceLine.toJSON))]

/-- The JSON document of a message. -/
def MetaOpsMessage.toJSON (m : MetaOpsMessage) : JSON :=
  .obj [("agent", .str m.Agent), ("title", .str m.Title), ("detail", .str m.Detail),
    ("when", .str m.When), ("badge", .str m.Badge)]

/-- The JSON document of a commit: `progress` is a number. -/
def MetaOpsCommit.toJSON (c : MetaOpsCommit) : JSON :=
  .obj [("branch", .str c.Branch), ("status", .str c.Status),
    ("progress", .num c.Progress), ("label", .str c.Label)]

/-- The JSON document of a check. -/
def MetaOpsCheck.toJSON (c : MetaOpsCheck) : JSON :=
  .obj [("title", .str c.Title), ("desc", .str c.Desc), ("ok", .bool c.Ok)]

/-- The JSON document of a prompt. -/
def MetaOpsPrompt.toJSON (p : MetaOpsPrompt) : JSON :=
  .obj [("name", .str p.Name), ("prompt", .str p.Prompt), ("focus", .str p.Focus)]

/-- The JSON document of the operations payload. -/
def MetaOpsPayload.toJSON (p : MetaOpsPayload) : JSON :=
  .obj [
    ("edges", .arr (p.Edges.map JSON.str)),
    ("messages", .arr (p.Messages.map MetaOpsMessage.toJSON)),
    ("commits", .arr (p.Commits.map MetaOpsCommit.toJSON)),
    ("checks", .arr (p.Checks.map MetaOpsCheck.toJSON)),
    ("prompts", .arr (p.Prompts.map MetaOpsPrompt.toJSON)),
    ("extensionNames", .arr (p.ExtensionNames.map JSON.str)),
    ("energySignal", .str p.EnergySignal),
    ("status", .str p.Status),
    ("cacheStatus", .str p.CacheStatus)]

/-- How many elements the array member of this key holds. -/
def JSON.arrayLength (j : JSON) (key : String) : Option Nat :=
  ((j.member key).bind JSON.elems?).map List.length

/-! ## `path` and `strings` helpers -/

/-- Function `strings.HasPrefix`. -/
def hasPrefix (s pre : String) : Bool := pre.data.isPrefixOf s.data

/-- Function `strings.HasSuffix`. -/
def hasSuffix (s suf : String) : Bool := suf.data.reverse.isPrefixOf s.data.reverse

/-- The elements of a slash-separated path, as `strings.Split(s, "/")`. -/
def splitSlash : List Char → List (List Char)
  | [] => [[]]
  | c :: cs =>
    if c = '/' then [] :: splitSlash cs
    else
      match splitSlash cs with
      | [] => [[c]]
      | e :: es => (c :: e) :: es

/-- Joins path elements with slashes. -/
def joinSlash : List (List Char) → List Char
  | [] => []
  | [e] => e
  | e :: es => e ++ '/' :: joinSlash es

/-- One element of a path meets the elements kept so far (newest first), by
the rules of `path.Clean`: empty and `.` elements vanish, `..` removes the
element before it, is dropped at the root and kept at the start of a
relative path. -/
def cleanStep (rooted : Bool) (out : List (List Char)) (e : List Char) : List (List Char) :=
  if e = [] ∨ e = ['.'] then out
  else if e = ['.', '.'] then
    match out with
    | [] => if rooted then [] else [e]
    | top :: rest => if top = ['.', '.'] then e :: out else rest
  else e :: out

/-- Function `path.Clean`: the shortest path naming the same place. -/
def pathClean (p : String) : String :=
  if p.data = [] then "."
  else
    let rooted := p.data.head? == some '/'
    let out := (splitSlash p.data).foldl (cleanStep rooted) []
    if rooted then String.mk ('/' :: joinSlash out.reverse)
    else if out = [] then "." else String.mk (joinSlash out.reverse)

/-- Function `path.Base`: the last element of a path. -/
def pathBase (p : String) : String :=
  if p.data = [] then "."
  else
    let stripped := (p.data.reverse.dropWhile (fun c => c == '/')).reverse
    let last := (splitSlash stripped).getLast?.getD []
    if last = [] then "/" else String.mk last

/-- Function `cleanPath` of `net/http`: the canonical form of a request path,
rooted, cleaned, with a trailing slash kept. -/
def cleanPath (p : String) : String :=
  if p.data = [] then "/"
  else
    let p1 := if p.data.head? == some '/' then p else "/" ++ p
    let np := pathClean p1
    if p1.data.getLast? == some '/' ∧ np ≠ "/" then
      (if p1.data.length = np.data.length + 1 ∧ hasPrefix p1 np then p1 else np ++ "/")
    else np

/-! ## `embed.FS` and `http.FS` -/

/-- The files an `embed.FS` holds: slash-separated names relative to the
package directory, each with its content.  Directories are the proper
ancestors of the files, and `.` is the root. -/
structure EmbedFS where
  files : List (String × String)
  deriving DecidableEq, Repr

/-- An element a valid path may hold: not empty, not `.`, not `..`. -/
def validElem (e : List Char) : Bool := !(e == [] || e == ['.'] || e == ['.', '.'])

/-- Function `fs.ValidPath`: `.`, or elements none of which is empty, `.`
or `..`. -/
def validPath (name : String) : Bool :=
  name == "." || (splitSlash name.data).all validElem

/-- What a name of the file system is. -/
inductive Entry where
  | file (data : String)
  | dir
  deriving DecidableEq, Repr

/-- Method `embed.FS.Open`: the file or directory of a valid name, `none`
standing for the error `fs.ErrNotExist`. -/
def EmbedFS.Open (fsys : EmbedFS) (name : String) : Option Entry :=
  if !validPath name then none
  else if name = "." then some .dir
  else
    match fsys.files.find? (fun f => f.1 == name) with
    | some f => some (.file f.2)
    | none =>
      if fsys.files.any (fun f => (name.data ++ ['/']).isPrefixOf f.1.data) then some .dir
      else none

/-- The name `http.FS(fsys)` opens for a rooted name of the file server: the
name relative to the root of the file system. -/
def httpFSName (name : String) : String :=
  if name = "/" then "."
  else if hasPrefix name "/" then String.mk (name.data.drop 1) else name

/-- Method `Open` of `http.FS(fsys)`. -/
def httpFSOpen (fsys : EmbedFS) (name : String) : Option Entry :=
  fsys.Open (httpFSName name)

/-- What the directive `//go:embed dist/*` guarantees about `staticFiles`:
every file has a valid name below the directory `dist`. -/
def EmbedFS.EmbeddedUnderDist (fsys : EmbedFS) : Prop :=
  ∀ f ∈ fsys.files, validPath f.1 = true ∧ hasPrefix f.1 "dist/" = true

/-! ## `http.FileServer` and `http.ServeMux` -/

/-- The responders of `net/http` whose output is not modelled byte for byte
(HTML bodies, content sniffing, range and conditional requests).  Every
result below holds whatever they write. -/
structure NetHTTP where
  /-- Function `http.Redirect(w, r, url, code)`. -/
  Redirect : ResponseWriter → Request → String → Nat → ResponseWriter
  /-- Function `serveContent` on an opened file: its name and content. -/
  serveContent : ResponseWriter → Request → String → String → ResponseWriter
  /-- Function `dirList` on an opened directory. -/
  dirList : ResponseWriter → Request → String → ResponseWriter

/-- Responders that send the status line and the headers that matter and no
body, as for a `HEAD` request. -/
def NetHTTP.headersOnly : NetHTTP where
  Redirect w _r url code := (w.setHeader "Location" url).WriteHeader code
  serveContent w _r _name data :=
    (w.setHeader "Content-Length" (toString data.data.length)).WriteHeader 200
  dirList w _r _name :=
    (w.setHeader "Content-Type" "text/html; charset=utf-8").WriteHeader 200

/-- Constant `http.StatusMovedPermanently`. -/
def StatusMovedPermanently : Nat := 301

/-- Constant `http.StatusBadRequest`. -/
def StatusBadRequest : Nat := 400

/-- How `serveFile` answers a request. -/
inductive FileAction where
  /-- A call `localRedirect(w, r, location)`. -/
  | redirect (location : String)
  /-- An error reply with this message and status. -/
  | error (msg : String) (code : Nat)
  /-- The listing of the directory of this name in the file system. -/
  | dirList (name : String)
  /-- The content of the file of this name in the file system. -/
  | content (name : String) (data : String)
  deriving DecidableEq, Repr

/-- The request path as the file handler reads it: rooted. -/
def filePath (r : Request) : String :=
  if hasPrefix r.path "/" then r.path else "/" ++ r.path

/-- Function `serveFile` as called by the file handler (`redirect` true,
name `path.Clean(upath)`): which answer the request gets from the files
of `fsys`. -/
def serveFile (fsys : EmbedFS) (r : Request) : FileAction :=
  let upath := filePath r
  let name := pathClean upath
  if hasSuffix upath "/index.html" then .redirect "./"
  else
    match httpFSOpen fsys name with
    | none => .error "404 page not found" StatusNotFound
    | some .dir =>
      if upath.data.getLast? != some '/' then .redirect (pathBase upath ++ "/")
      else
        let index := (if hasSuffix name "/" then String.mk name.data.dropLast else name)
          ++ "/index.html"
        match httpFSOpen fsys index with
        | some (.file data) => .content (httpFSName index) data
        | some .dir => .dirList (httpFSName index)
        | none => .dirList (httpFSName name)
    | some (.file data) =>
      if upath.data.getLast? == some '/' then .redirect ("../" ++ pathBase upath)
      else .content (httpFSName name) data

/-- Function `localRedirect`: status 301 with the location, the query kept. -/
def localRedirect (w : ResponseWriter) (r : Request) (newPath : String) : ResponseWriter :=
  let target := if r.rawQuery ≠ "" then newPath ++ "?" ++ r.rawQuery else newPath
  (w.setHeader "Location" target).WriteHeader StatusMovedPermanently

/-- Function `serveError`: headers describing the missing content are dropped
before `http.Error`. -/
def serveError (w : ResponseWriter) (msg : String) (code : Nat) : ResponseWriter :=
  let w1 := w.delHeader "Cache-Control"
  let w2 := w1.delHeader "Content-Encoding"
  let w3 := w2.delHeader "Etag"
  let w4 := w3.delHeader "Last-Modified"
  httpError w4 msg code

/-- Carries out the answer `serveFile` decided on. -/
def FileAction.run (lib : NetHTTP) (w : ResponseWriter) (r : Request) : FileAction → ResponseWriter
  | .redirect location => localRedirect w r location
  | .error msg code => serveError w msg code
  | .dirList name => lib.dirList w r name
  | .content name data => lib.serveContent w r name data

/-- The handler `http.FileServer(http.FS(fsys))`. -/
def FileServer (lib : NetHTTP) (fsys : EmbedFS) : Handler := fun r w g =>
  ⟨(serveFile fsys r).run lib w { r with path := filePath r }, g, []⟩

/-- An `http.ServeMux`: the registered patterns with their handlers. -/
structure ServeMux where
  entries : List (String × Handler)

/-- Function `http.NewServeMux`. -/
def NewServeMux : ServeMux := ⟨[]⟩

/-- Method `ServeMux.Handle` (and `HandleFunc`). -/
def ServeMux.Handle (mux : ServeMux) (pattern : String) (h : Handler) : ServeMux :=
  ⟨mux.entries ++ [(pattern, h)]⟩

/-- The entry of a path: the pattern equal to it, or else the longest
pattern ending in a slash that the path starts with. -/
def ServeMux.lookup (mux : ServeMux) (path : String) : Option (String × Handler) :=
  match mux.entries.find? (fun e => e.1 == path) with
  | some e => some e
  | none =>
    (mux.entries.filter (fun e => hasSuffix e.1 "/" && hasPrefix path e.1)).foldl
      (fun best e =>
        match best with
        | none => some e
        | some b => if b.1.data.length < e.1.data.length then some e else some b)
      none

/-- Whether the path is not registered although the path with a slash added
is: the router then redirects to the latter. -/
def ServeMux.shouldRedirect (mux : ServeMux) (path : String) : Bool :=
  !(mux.entries.any (fun e => e.1 == path)) && path.data != [] &&
    mux.entries.any (fun e => e.1 == path ++ "/") && path.data.getLast? != some '/'

/-- What the router does with a request. -/
inductive MuxDecision where
  /-- The request target `*`: status 400 (with `Connection: close` from
  HTTP/1.1 on). -/
  | badRequest
  /-- A permanent redirect to this path (the query is kept). -/
  | redirect (target : String)
  /-- No pattern matches: `http.NotFoundHandler`. -/
  | notFound
  /-- The handler registered under this pattern serves the request. -/
  | handler (pattern : String) (h : Handler)

/-- Method `ServeMux.Handler` preceded by the test of `ServeMux.ServeHTTP`:
apart from `CONNECT`, a request whose path is not in canonical form is
redirected to the canonical path instead of being served. -/
def ServeMux.findHandler (mux : ServeMux) (r : Request) : MuxDecision :=
  if r.requestURI = "*" then .badRequest
  else if r.method = "CONNECT" then
    if mux.shouldRedirect r.path then .redirect (r.path ++ "/")
    else
      match mux.lookup r.path with
      | some e => .handler e.1 e.2
      | none => .notFound
  else
    let path := cleanPath r.path
    if mux.shouldRedirect path then .redirect (path ++ "/")
    else if path ≠ r.path then .redirect path
    else
      match mux.lookup r.path with
      | some e => .handler e.1 e.2
      | none => .notFound

/-- The target of a router redirect with the query of the request. -/
def redirectURL (r : Request) (target : String) : String :=
  if r.rawQuery ≠ "" then target ++ "?" ++ r.rawQuery else target

/-- Method `ServeMux.ServeHTTP`. -/
def ServeMux.ServeHTTP (lib : NetHTTP) (mux : ServeMux) : Handler := fun r w g =>
  match mux.findHandler r with
  | .badRequest => ⟨(w.setHeader "Connection" "close").WriteHeader StatusBadRequest, g, []⟩
  | .redirect target => ⟨lib.Redirect w r (redirectURL r target) StatusMovedPermanently, g, []⟩
  | .notFound => ⟨httpError w "404 page not found" StatusNotFound, g, []⟩
  | .handler _ h => h r w g

/-- The route table `main` builds (lines 140-143); `staticFiles` is the
embedded file system, handed to the file server as it is. -/
def mux (lib : NetHTTP) (staticFiles : EmbedFS) : ServeMux :=
  ((NewServeMux.Handle "/api/concordance" handleConcordance).Handle
    "/api/metaops" handleMetaOps).Handle "/" (FileServer lib staticFiles)

/-- The handler of the server `main` starts (line 146): `withLogging(mux)`. -/
def serverHandler (lib : NetHTTP) (staticFiles : EmbedFS) : Handler :=
  withLogging ((mux lib staticFiles).ServeHTTP lib)

/-- The package variables after the server has answered the requests in
turn, each on a writer of its own. -/
def serveAll (h : Handler) : List Request → Globals → Globals
  | [], g => g
  | r :: rs, g => serveAll h rs (h r ResponseWriter.fresh g).globals

/-! ## Theorems -/

set_option maxRecDepth 1000000

/-! ### Helper lemmas: the encoder on the payload types -/

theorem marshalElems_ok : ∀ (vs : List GoValue),
    (∀ v ∈ vs, ∃ s, marshal v = .ok s) → ∃ s, marshalElems vs = .ok s
  | [], _ => ⟨"", by simp [marshalElems]⟩
  | [v], h => by
      obtain ⟨s, hs⟩ := h v (by simp)
      exact ⟨s, by simp [marshalElems, hs]⟩
  | v :: w :: rest, h => by
      obtain ⟨a, ha⟩ := h v (by simp)
      obtain ⟨b, hb⟩ := marshalElems_ok (w :: rest) (fun x hx => h x (List.mem_cons_of_mem _ hx))
      refine ⟨a ++ "," ++ b, ?_⟩
      rw [marshalElems, ha, hb]
      · rfl
      · simp

theorem marshalFields_ok : ∀ (fs : List (String × GoValue)),
    (∀ f ∈ fs, ∃ s, marshal f.2 = .ok s) → ∃ s, marshalFields fs = .ok s
  | [], _ => ⟨"", by simp [marshalFields]⟩
  | [(k, v)], h => by
      obtain ⟨s, hs⟩ := h (k, v) (by simp)
      simp only at hs
      exact ⟨appendString k ++ ":" ++ s, by simp [marshalFields, hs, Except.map]⟩
  | (k, v) :: f :: rest, h => by
      obtain ⟨a, ha⟩ := h (k, v) (by simp)
      obtain ⟨b, hb⟩ := marshalFields_ok (f :: rest) (fun x hx => h x (List.mem_cons_of_mem _ hx))
      simp only at ha
      refine ⟨appendString k ++ ":" ++ a ++ "," ++ b, ?_⟩
      rw [marshalFields, ha, hb]
      · rfl
      · simp

theorem marshal_slice_ok (vs : List GoValue) (h : ∀ v ∈ vs, ∃ s, marshal v = .ok s) :
    ∃ s, marshal (.slice vs) = .ok s := by
  obtain ⟨s, hs⟩ := marshalElems_ok vs h
  exact ⟨"[" ++ s ++ "]", by simp [marshal, hs, Except.map]⟩

theorem marshal_struct_ok (fs : List (String × GoValue))
    (h : ∀ f ∈ fs, ∃ s, marshal f.2 = .ok s) : ∃ s, marshal (.struct fs) = .ok s := by
  obtain ⟨s, hs⟩ := marshalFields_ok fs h
  exact ⟨"\x7b" ++ s ++ "\x7d", by simp [marshal, hs, Except.map]⟩

theorem marshal_string_ok (s : String) : ∃ t, marshal (.string s) = .ok t :=
  ⟨appendString s, by simp [marshal]⟩

theorem marshal_strings_ok (xs : List String) : ∃ t, marshal (.slice (xs.map GoValue.string)) = .ok t := by
  apply marshal_slice_ok
  intro v hv
  obtain ⟨s, _, rfl⟩ := List.mem_map.1 hv
  exact marshal_string_ok s

theorem marshal_line_ok (l : ConcordanceLine) : ∃ t, marshal l.toGo = .ok t := by
  apply marshal_struct_ok
  intro f hf
  simp only [List.mem_cons, List.mem_singleton, List.not_mem_nil, or_false] at hf
  rcases hf with rfl | rfl | rfl <;> exact marshal_string_ok _

theorem marshal_message_ok (m : MetaOpsMessage) : ∃ t, marshal m.toGo = .ok t := by
  apply marshal_struct_ok
  intro f hf
  simp only [List.mem_cons, List.mem_singleton, List.not_mem_nil, or_false] at hf
  rcases hf with rfl | rfl | rfl | rfl | rfl <;> exact marshal_string_ok _

theorem marshal_commit_ok (c : MetaOpsCommit) : ∃ t, marshal c.toGo = .ok t := by
  apply marshal_struct_ok
  intro f hf
  simp only [List.mem_cons, List.mem_singleton, List.not_mem_nil, or_false] at hf
  rcases hf with rfl | rfl | rfl | rfl
  · exact marshal_string_ok _
  · exact marshal_string_ok _
  · exact ⟨_, by rw [marshal]⟩
  · exact marshal_string_ok _

theorem marshal_check_ok (c : MetaOpsCheck) : ∃ t, marshal c.toGo = .ok t := by
  apply marshal_struct_ok
  intro f hf
  simp only [List.mem_cons, List.mem_singleton, List.not_mem_nil, or_false] at hf
  rcases hf with rfl | rfl | rfl
  · exact marshal_string_ok _
  · exact marshal_string_ok _
  · exact ⟨_, by rw [marshal]⟩

theorem marshal_prompt_ok (p : MetaOpsPrompt) : ∃ t, marshal p.toGo = .ok t := by
  apply marshal_struct_ok
  intro f hf
  simp only [List.mem_cons, List.mem_singleton, List.not_mem_nil, or_false] at hf
  rcases hf with rfl | rfl | rfl <;> exact marshal_string_ok _

theorem marshal_map_ok {α : Type} (f : α → GoValue) (hf : ∀ a, ∃ t, marshal (f a) = .ok t)
    (xs : List α) : ∃ t, marshal (.slice (xs.map f)) = .ok t := by
  apply marshal_slice_ok
  intro v hv
  obtain ⟨a, _, rfl⟩ := List.mem_map.1 hv
  exact hf a

theorem marshal_concordancePayload_ok (p : ConcordancePayload) : ∃ t, marshal p.toGo = .ok t := by
  apply marshal_struct_ok
  intro f hf
  simp only [List.mem_cons, List.mem_singleton, List.not_mem_nil, or_false] at hf
  rcases hf with rfl | rfl
  · exact marshal_string_ok _
  · exact marshal_map_ok _ marshal_line_ok _

theorem marshal_metaOpsPayload_ok (p : MetaOpsPayload) : ∃ t, marshal p.toGo = .ok t := by
  apply marshal_struct_ok
  intro f hf
  simp only [List.mem_cons, List.mem_singleton, List.not_mem_nil, or_false] at hf
  rcases hf with rfl | rfl | rfl | rfl | rfl | rfl | rfl | rfl | rfl
  · exact marshal_strings_ok _
  · exact marshal_map_ok _ marshal_message_ok _
  · exact marshal_map_ok _ marshal_commit_ok _
  · exact marshal_map_ok _ marshal_check_ok _
  · exact marshal_map_ok _ marshal_prompt_ok _
  · exact marshal_strings_ok _
  · exact marshal_string_ok _
  · exact marshal_string_ok _
  · exact marshal_string_ok _

theorem encode_of_marshal_ok (w : ResponseWriter) (v : GoValue) (s : String)
    (h : marshal v = .ok s) : Encoder.Encode w v = (w.Write (s ++ "\n"), none) := by
  simp [Encoder.Encode, h]

theorem encode_of_marshal_error (w : ResponseWriter) (v : GoValue) (e : String)
    (h : marshal v = .error e) : Encoder.Encode w v = (w, some e) := by
  simp [Encoder.Encode, h]

/-! ### Helper lemmas: the router -/

theorem foldl_longest_mem (E : List (String × Handler)) :
    ∀ (l : List (String × Handler)) (init : Option (String × Handler)),
      (∀ b, init = some b → b ∈ E) → (∀ x ∈ l, x ∈ E) →
      ∀ e, l.foldl (fun best e =>
          match best with
          | none => some e
          | some b => if b.1.data.length < e.1.data.length then some e else some b) init = some e →
        e ∈ E
  | [], init, hinit, _, e, he => hinit e he
  | x :: l, init, hinit, hl, e, he => by
      rw [List.foldl_cons] at he
      refine foldl_longest_mem E l _ ?_ (fun y hy => hl y (List.mem_cons_of_mem _ hy)) e he
      intro b hb
      cases init with
      | none =>
        simp only [Option.some.injEq] at hb
        exact hb ▸ hl x (List.mem_cons_self _ _)
      | some c =>
        simp only at hb
        split at hb
        · simp only [Option.some.injEq] at hb
          exact hb ▸ hl x (List.mem_cons_self _ _)
        · simp only [Option.some.injEq] at hb
          exact hb ▸ hinit c rfl

theorem lookup_mem (mux : ServeMux) (path : String) (e : String × Handler)
    (h : mux.lookup path = some e) : e ∈ mux.entries := by
  unfold ServeMux.lookup at h
  split at h
  · rename_i e1 hfind
    simp only [Option.some.injEq] at h
    exact h ▸ List.mem_of_find?_eq_some hfind
  · exact foldl_longest_mem mux.entries _ none (fun b hb => by simp at hb)
      (fun x hx => (List.mem_filter.1 hx).1) e h

theorem findHandler_mem (mux : ServeMux) (r : Request) (p : String) (h : Handler)
    (hd : mux.findHandler r = .handler p h) : (p, h) ∈ mux.entries := by
  unfold ServeMux.findHandler at hd
  split at hd
  · cases hd
  · split at hd
    · split at hd
      · cases hd
      · split at hd
        · rename_i e he
          cases hd
          exact lookup_mem mux _ _ he
        · cases hd
    · simp only at hd
      split at hd
      · cases hd
      · split at hd
        · cases hd
        · split at hd
          · rename_i e he
            cases hd
            exact lookup_mem mux _ _ he
          · cases hd

theorem serverHandler_globals (lib : NetHTTP) (staticFiles : EmbedFS) (r : Request)
    (w : ResponseWriter) (g : Globals) :
    (serverHandler lib staticFiles r w g).globals = g := by
  unfold serverHandler withLogging ServeMux.ServeHTTP
  simp only
  cases hd : (mux lib staticFiles).findHandler r with
  | badRequest => rfl
  | redirect t => rfl
  | notFound => rfl
  | handler p h =>
    have hm := findHandler_mem _ _ _ _ hd
    simp only [mux, NewServeMux, ServeMux.Handle, List.nil_append, List.cons_append,
      List.mem_cons, List.mem_singleton, List.not_mem_nil, or_false, Prod.mk.injEq] at hm
    rcases hm with ⟨_, rfl⟩ | ⟨_, rfl⟩ | ⟨_, rfl⟩ <;> rfl

theorem serveAll_serverHandler (lib : NetHTTP) (staticFiles : EmbedFS) :
    ∀ (history : List Request) (g : Globals),
      serveAll (serverHandler lib staticFiles) history g = g
  | [], _ => rfl
  | r :: rs, g => by
      rw [serveAll, serverHandler_globals]
      exact serveAll_serverHandler lib staticFiles rs g

/-! ### The claims -/

/-- C1: for every request, `handleConcordance` answers with status 200 and a
body that is a JSON object whose `keyword` is `language` and whose `lines`
are the 10 lines of the `concordanceLines` table as objects, in table order,
from `the historical study of` to `documentation of endangered`. -/
theorem handleConcordance_response (r : Request) :
    (handleConcordance r ResponseWriter.fresh initGlobals).w.result.status = 200 ∧
    decodeJSON (handleConcordance r ResponseWriter.fresh initGlobals).w.result.body =
      some (.obj [("keyword", .str "language"),
        ("lines", .arr (concordanceLines.map ConcordanceLine.toJSON))]) ∧
    (concordanceLines.map ConcordanceLine.toJSON).length = 10 ∧
    concordanceLines.head?.map ConcordanceLine.Left = some "the historical study of" ∧
    concordanceLines.getLast?.map ConcordanceLine.Left = some "documentation of endangered" :=
  ⟨rfl, rfl, rfl, rfl, rfl⟩

/-- C2: for every request, `handleMetaOps` answers with status 200 and a body
that is a JSON object with `status` `live`, `cacheStatus` `fresh`,
`energySignal` `green`, and arrays of 5 edges, 3 messages, 3 commits,
3 checks, 3 prompts and 6 extension names. -/
theorem handleMetaOps_response (r : Request) :
    (handleMetaOps r ResponseWriter.fresh initGlobals).w.result.status = 200 ∧
    ∃ j, decodeJSON (handleMetaOps r ResponseWriter.fresh initGlobals).w.result.body = some j ∧
      j.member "status" = some (.str "live") ∧
      j.member "cacheStatus" = some (.str "fresh") ∧
      j.member "energySignal" = some (.str "green") ∧
      j.arrayLength "edges" = some 5 ∧
      j.arrayLength "messages" = some 3 ∧
      j.arrayLength "commits" = some 3 ∧
      j.arrayLength "checks" = some 3 ∧
      j.arrayLength "prompts" = some 3 ∧
      j.arrayLength "extensionNames" = some 6 :=
  ⟨rfl, metaOps.toJSON, rfl, rfl, rfl, rfl, rfl, rfl, rfl, rfl, rfl, rfl⟩

/-- C3: for every request, the responses of `handleConcordance` and
`handleMetaOps` carry `Cache-Control` with the single value `max-age=30` and
`Content-Type` with the single value `application/json`; both are in the
header map of a writer that has sent no status line and no body byte, and
the encoder writes the body from that writer. -/
theorem api_headers_set_before_body (r : Request) :
    ((handleConcordance r ResponseWriter.fresh initGlobals).w.result.header.Values "Cache-Control"
        = ["max-age=30"] ∧
      (handleConcordance r ResponseWriter.fresh initGlobals).w.result.header.Values "Content-Type"
        = ["application/json"] ∧
      (handleMetaOps r ResponseWriter.fresh initGlobals).w.result.header.Values "Cache-Control"
        = ["max-age=30"] ∧
      (handleMetaOps r ResponseWriter.fresh initGlobals).w.result.header.Values "Content-Type"
        = ["application/json"]) ∧
    ∃ w2 : ResponseWriter,
      w2.wroteHeader = false ∧ w2.body = "" ∧
      w2.header.Values "Cache-Control" = ["max-age=30"] ∧
      w2.header.Values "Content-Type" = ["application/json"] ∧
      (handleConcordance r ResponseWriter.fresh initGlobals).w =
        (Encoder.Encode w2 (ConcordancePayload.toGo ⟨"language", concordanceLines⟩)).1 ∧
      (handleMetaOps r ResponseWriter.fresh initGlobals).w =
        (Encoder.Encode w2 metaOps.toGo).1 := by
  refine ⟨⟨rfl, rfl, rfl, rfl⟩,
    (ResponseWriter.fresh.setHeader "Content-Type" "application/json").setHeader
      "Cache-Control" "max-age=30", rfl, rfl, by decide, by decide, rfl, rfl⟩

/-- C4: the answer of each API handler depends neither on the request nor on
what the server has answered before: after any two sequences of earlier
requests to the server, `handleConcordance` gives any two requests the same
status, headers and body, and so does `handleMetaOps`. -/
theorem api_response_independent (lib : NetHTTP) (staticFiles : EmbedFS)
    (history1 history2 : List Request) (r1 r2 : Request) :
    (handleConcordance r1 ResponseWriter.fresh
        (serveAll (serverHandler lib staticFiles) history1 initGlobals)).w.result =
      (handleConcordance r2 ResponseWriter.fresh
        (serveAll (serverHandler lib staticFiles) history2 initGlobals)).w.result ∧
    (handleMetaOps r1 ResponseWriter.fresh
        (serveAll (serverHandler lib staticFiles) history1 initGlobals)).w.result =
      (handleMetaOps r2 ResponseWriter.fresh
        (serveAll (serverHandler lib staticFiles) history2 initGlobals)).w.result := by
  rw [serveAll_serverHandler, serveAll_serverHandler]
  exact ⟨rfl, rfl⟩

/-- C7: for every handler `h` and request `r`, `withLogging h` emits exactly
one log record, made of the method and the path of `r`, ahead of whatever
`h` logs, runs `h` on the same request, writer and package variables, and
leaves the writer, hence the response, exactly as `h` alone does. -/
theorem withLogging_frame (h : Handler) (r : Request) (w : ResponseWriter) (g : Globals) :
    (withLogging h r w g).logged = ("[" ++ r.method ++ "] " ++ r.path) :: (h r w g).logged ∧
    (withLogging h r w g).w = (h r w g).w ∧
    (withLogging h r w g).w.result = (h r w g).w.result ∧
    (withLogging h r w g).globals = (h r w g).globals :=
  ⟨rfl, rfl, rfl, rfl⟩

/-- C8: in the body of `handleMetaOps` every element of `commits` has a
`progress` member that decodes as a JSON number, not a string, equal to the
`Progress` field of the corresponding commit: 78, 42, 63 in order; the
encoder writes such a field as bare decimal digits. -/
theorem commits_progress_is_number (r : Request) :
    ∃ j commits,
      decodeJSON (handleMetaOps r ResponseWriter.fresh initGlobals).w.result.body = some j ∧
      j.member "commits" = some (.arr commits) ∧
      commits.map (fun c => c.member "progress") =
        metaOps.Commits.map (fun c => some (JSON.num c.Progress)) ∧
      metaOps.Commits.map MetaOpsCommit.Progress = [78, 42, 63] ∧
      metaOps.Commits.map (fun c => marshal (.int c.Progress)) = [.ok "78", .ok "42", .ok "63"] :=
  ⟨metaOps.toJSON, metaOps.Commits.map MetaOpsCommit.toJSON, rfl, rfl, rfl, rfl, rfl⟩

/-- C9: encoding a `ConcordancePayload` or a `MetaOpsPayload` never fails,
whatever the package variables hold: the encoder returns no error for the
payload of either handler, so neither handler reaches the status-500 branch
of `writeJSON`, and both answer with status 200. -/
theorem fixed_payloads_encode (r : Request) (w : ResponseWriter) (g : Globals) :
    (∃ s, marshal (ConcordancePayload.toGo ⟨"language", g.concordanceLines⟩) = .ok s) ∧
    (∃ s, marshal g.metaOps.toGo = .ok s) ∧
    (Encoder.Encode w (ConcordancePayload.toGo ⟨"language", g.concordanceLines⟩)).2 = none ∧
    (Encoder.Encode w g.metaOps.toGo).2 = none ∧
    (handleConcordance r ResponseWriter.fresh g).w.result.status = 200 ∧
    (handleMetaOps r ResponseWriter.fresh g).w.result.status = 200 := by
  obtain ⟨s1, h1⟩ := marshal_concordancePayload_ok ⟨"language", g.concordanceLines⟩
  obtain ⟨s2, h2⟩ := marshal_metaOpsPayload_ok g.metaOps
  refine ⟨⟨s1, h1⟩, ⟨s2, h2⟩, ?_, ?_, ?_, ?_⟩
  · rw [encode_of_marshal_ok _ _ _ h1]
  · rw [encode_of_marshal_ok _ _ _ h2]
  · simp only [handleConcordance, writeJSON, encode_of_marshal_ok _ _ _ h1]
    rfl
  · simp only [handleMetaOps, writeJSON, encode_of_marshal_ok _ _ _ h2]
    rfl

/-- C6, as stated, fails: the encoder rejects a channel with the error text
`json: unsupported type: chan int`, and the body of the status-500 response
is not that text but the text followed by a line feed. -/
theorem writeJSON_error_body_is_not_bare_text :
    marshal (.unsupported "chan int") = .error "json: unsupported type: chan int" ∧
    (writeJSON ResponseWriter.fresh (.unsupported "chan int")).result.status = 500 ∧
    (writeJSON ResponseWriter.fresh (.unsupported "chan int")).result.body ≠
      "json: unsupported type: chan int" ∧
    (writeJSON ResponseWriter.fresh (.unsupported "chan int")).result.body =
      "json: unsupported type: chan int\n" :=
  ⟨rfl, rfl, by decide, rfl⟩

/-- C6, amended: a value whose encoding fails with error `e` gets status 500
and a body holding the text of `e` followed by a line feed, and nothing of
the payload; a value whose encoding succeeds with text `s` gets status 200
and a body holding exactly `s` followed by a line feed. -/
theorem writeJSON_outcome (v : GoValue) :
    (∀ e, marshal v = .error e →
      (writeJSON ResponseWriter.fresh v).result.status = 500 ∧
      (writeJSON ResponseWriter.fresh v).result.body = e ++ "\n") ∧
    (∀ s, marshal v = .ok s →
      (writeJSON ResponseWriter.fresh v).result.status = 200 ∧
      (writeJSON ResponseWriter.fresh v).result.body = s ++ "\n") := by
  constructor
  · intro e he
    simp [writeJSON, encode_of_marshal_error _ _ _ he, httpError, ResponseWriter.result,
      ResponseWriter.Write, ResponseWriter.WriteHeader, ResponseWriter.setHeader,
      ResponseWriter.delHeader, ResponseWriter.fresh, StatusInternalServerError]
  · intro s hs
    simp [writeJSON, encode_of_marshal_ok _ _ _ hs, ResponseWriter.result,
      ResponseWriter.Write, ResponseWriter.WriteHeader, ResponseWriter.setHeader,
      ResponseWriter.fresh]

/-- Witness of `writeJSON_outcome`: a channel, which the encoder rejects. -/
theorem writeJSON_outcome_witness :
    marshal (.unsupported "chan int") = .error "json: unsupported type: chan int" ∧
    (writeJSON ResponseWriter.fresh (.unsupported "chan int")).result.status = 500 ∧
    (writeJSON ResponseWriter.fresh (.unsupported "chan int")).result.body =
      "json: unsupported type: chan int" ++ "\n" :=
  ⟨rfl, (writeJSON_outcome (.unsupported "chan int")).1 "json: unsupported type: chan int" rfl⟩

/-! ### Helper lemmas: paths -/

theorem splitSlash_ne_nil (l : List Char) : splitSlash l ≠ [] := by
  cases l with
  | nil => simp [splitSlash]
  | cons c cs =>
    rw [splitSlash]
    split
    · simp
    · split <;> simp

theorem joinSlash_cons_cons (c : Char) (e : List Char) (es : List (List Char)) :
    joinSlash ((c :: e) :: es) = c :: joinSlash (e :: es) := by
  cases es <;> simp [joinSlash]

theorem joinSlash_splitSlash (l : List Char) : joinSlash (splitSlash l) = l := by
  induction l with
  | nil => simp [splitSlash, joinSlash]
  | cons c cs ih =>
    rw [splitSlash]
    split
    · rename_i hc
      cases hs : splitSlash cs with
      | nil => exact absurd hs (splitSlash_ne_nil cs)
      | cons e es =>
        rw [hs] at ih
        simp [joinSlash, ih, hc]
    · cases hs : splitSlash cs with
      | nil => exact absurd hs (splitSlash_ne_nil cs)
      | cons e es =>
        rw [hs] at ih
        simp only
        rw [joinSlash_cons_cons, ih]

theorem splitSlash_append_slash (l : List Char) :
    splitSlash (l ++ ['/']) = splitSlash l ++ [[]] := by
  induction l with
  | nil => simp [splitSlash]
  | cons c cs ih =>
    rw [List.cons_append, splitSlash, splitSlash, ih]
    split
    · simp
    · cases hs : splitSlash cs with
      | nil => exact absurd hs (splitSlash_ne_nil cs)
      | cons e es => simp

theorem getLast?_ne_slash_of_valid (l : List Char)
    (h : (splitSlash l).all validElem = true) : l.getLast? ≠ some '/' := by
  intro hl
  obtain ⟨l', rfl⟩ : ∃ l', l = l' ++ ['/'] := by
    rcases List.eq_nil_or_concat l with rfl | ⟨l', a, rfl⟩
    · simp at hl
    · simp at hl
      exact ⟨l', by rw [hl]; simp⟩
  rw [splitSlash_append_slash, List.all_append] at h
  simp [validElem] at h

theorem foldl_cleanStep_valid (rooted : Bool) :
    ∀ (es out : List (List Char)), es.all validElem = true →
      es.foldl (cleanStep rooted) out = es.reverse ++ out
  | [], out, _ => by simp
  | e :: es, out, h => by
      simp only [List.all_cons, Bool.and_eq_true] at h
      have he := h.1
      simp only [validElem, Bool.not_eq_true', Bool.or_eq_false_iff, beq_eq_false_iff_ne, ne_eq] at he
      rw [List.foldl_cons, foldl_cleanStep_valid rooted es _ h.2]
      simp [cleanStep, he.1.1, he.1.2, he.2]

theorem pathClean_rooted_valid (n : List Char) (h : (splitSlash n).all validElem = true) :
    pathClean (String.mk ('/' :: n)) = String.mk ('/' :: n) := by
  unfold pathClean
  simp only [List.cons_ne_nil, ↓reduceIte, List.head?_cons, beq_self_eq_true]
  have hs : splitSlash ('/' :: n) = [] :: splitSlash n := by simp [splitSlash]
  rw [hs, List.foldl_cons]
  have h0 : cleanStep true [] [] = [] := by simp [cleanStep]
  rw [h0, foldl_cleanStep_valid true _ _ h]
  simp [joinSlash_splitSlash]

theorem pathClean_rooted_head (p : String) (h : p.data.head? = some '/') :
    (pathClean p).data.head? = some '/' := by
  unfold pathClean
  have hne : p.data ≠ [] := by
    intro h0
    rw [h0] at h
    simp at h
  simp [hne, h]

theorem cleanPath_head_aux (p1 : String) (h1 : p1.data.head? = some '/') :
    (if p1.data.getLast? == some '/' ∧ pathClean p1 ≠ "/" then
      (if p1.data.length = (pathClean p1).data.length + 1 ∧ hasPrefix p1 (pathClean p1) then p1
        else pathClean p1 ++ "/")
    else pathClean p1).data.head? = some '/' := by
  have hc := pathClean_rooted_head p1 h1
  split
  · split
    · exact h1
    · rw [String.data_append, List.head?_append, hc]
      rfl
  · exact hc

theorem cleanPath_head (p : String) : (cleanPath p).data.head? = some '/' := by
  unfold cleanPath
  split
  · rfl
  · apply cleanPath_head_aux
    split
    · rename_i hh
      simpa using hh
    · rfl

theorem hasPrefix_slash_of_head (p : String) (h : p.data.head? = some '/') :
    hasPrefix p "/" = true := by
  unfold hasPrefix
  cases hp : p.data with
  | nil => rw [hp] at h; simp at h
  | cons c cs =>
    rw [hp] at h
    simp only [List.head?_cons, Option.some.injEq] at h
    subst h
    simp [List.isPrefixOf]

theorem ne_append_slash (s path : String) (h : s.data.getLast? ≠ some '/') :
    s ≠ path ++ "/" := by
  intro he
  apply h
  rw [he]
  simp [String.data_append]

theorem mux_shouldRedirect (lib : NetHTTP) (staticFiles : EmbedFS) (path : String) :
    (mux lib staticFiles).shouldRedirect path = false := by
  unfold ServeMux.shouldRedirect
  by_cases hp : path.data = []
  · simp [hp]
  · have h1 : ("/api/concordance" == path ++ "/") = false :=
      beq_false_of_ne (ne_append_slash _ _ (by decide))
    have h2 : ("/api/metaops" == path ++ "/") = false :=
      beq_false_of_ne (ne_append_slash _ _ (by decide))
    have h3 : ("/" == path ++ "/") = false := by
      apply beq_false_of_ne
      intro he
      apply hp
      have hd := congrArg String.data he
      simp only [String.data_append] at hd
      have hl := congrArg List.length hd
      simp at hl
      exact List.length_eq_zero.1 hl
    simp [mux, NewServeMux, ServeMux.Handle, h1, h2, h3]

theorem mux_lookup_other (lib : NetHTTP) (staticFiles : EmbedFS) (path : String)
    (hr : path.data.head? = some '/') (h1 : path ≠ "/api/concordance")
    (h2 : path ≠ "/api/metaops") :
    (mux lib staticFiles).lookup path = some ("/", FileServer lib staticFiles) := by
  have hp := hasPrefix_slash_of_head path hr
  have e1 : ("/api/concordance" == path) = false := beq_false_of_ne (Ne.symm h1)
  have e2 : ("/api/metaops" == path) = false := beq_false_of_ne (Ne.symm h2)
  have s1 : hasSuffix "/api/concordance" "/" = false := by decide
  have s2 : hasSuffix "/api/metaops" "/" = false := by decide
  have s3 : hasSuffix "/" "/" = true := by decide
  by_cases h3 : path = "/"
  · subst h3
    rfl
  · have e3 : ("/" == path) = false := beq_false_of_ne (Ne.symm h3)
    simp [ServeMux.lookup, mux, NewServeMux, ServeMux.Handle, List.find?, List.filter, e1, e2, e3,
      s1, s2, s3, hp]

/-- C5, as stated, fails on three request paths that are neither API path.
`/api//concordance` is not in canonical form: the router answers it with a
redirect to `/api/concordance` and the file server is not called.  The
target `*` gets status 400 from the router.  `/x/index.html` goes to the
file server and names nothing in the bundle, yet the answer is a redirect
to `./`, not status 404. -/
theorem unmatched_path_not_always_file_server_404 :
    (mux NetHTTP.headersOnly ⟨[("dist/index.html", "<html>")]⟩).findHandler
        ⟨"GET", "/api//concordance", "/api//concordance", "", [], ""⟩ =
      .redirect "/api/concordance" ∧
    (mux NetHTTP.headersOnly ⟨[("dist/index.html", "<html>")]⟩).findHandler
        ⟨"OPTIONS", "*", "*", "", [], ""⟩ = .badRequest ∧
    httpFSOpen ⟨[("dist/index.html", "<html>")]⟩ (pathClean "/x/index.html") = none ∧
    serveFile ⟨[("dist/index.html", "<html>")]⟩
        ⟨"GET", "/x/index.html", "/x/index.html", "", [], ""⟩ = .redirect "./" ∧
    ((mux NetHTTP.headersOnly ⟨[("dist/index.html", "<html>")]⟩).ServeHTTP NetHTTP.headersOnly
        ⟨"GET", "/x/index.html", "/x/index.html", "", [], ""⟩
        ResponseWriter.fresh initGlobals).w.result.status = 301 :=
  ⟨rfl, rfl, by decide, by decide, rfl⟩

/-- C5, amended: for every request whose target is not `*` and whose path is
in the canonical form the router requires (`cleanPath` leaves it unchanged),
if the path is neither `/api/concordance` nor `/api/metaops` then the route
table of `main` hands the request to the file server registered under `/`,
not to an API handler; and when moreover the path does not end in
`/index.html` and names neither a file nor a directory of the bundle, the
response has status 404. -/
theorem unmatched_canonical_path_to_file_server (lib : NetHTTP) (staticFiles : EmbedFS)
    (r : Request) (huri : r.requestURI ≠ "*") (hclean : cleanPath r.path = r.path)
    (h1 : r.path ≠ "/api/concordance") (h2 : r.path ≠ "/api/metaops") :
    (mux lib staticFiles).findHandler r = .handler "/" (FileServer lib staticFiles) ∧
    (∀ g, (mux lib staticFiles).ServeHTTP lib r ResponseWriter.fresh g =
      FileServer lib staticFiles r ResponseWriter.fresh g) ∧
    (hasSuffix r.path "/index.html" = false →
      httpFSOpen staticFiles (pathClean r.path) = none →
      ∀ g, ((mux lib staticFiles).ServeHTTP lib r ResponseWriter.fresh g).w.result.status = 404 ∧
        ((mux lib staticFiles).ServeHTTP lib r ResponseWriter.fresh g).w.result.body =
          "404 page not found\n") := by
  have hr : r.path.data.head? = some '/' := by
    rw [← hclean]
    exact cleanPath_head _
  have hfind : (mux lib staticFiles).findHandler r = .handler "/" (FileServer lib staticFiles) := by
    unfold ServeMux.findHandler
    simp only [huri, ↓reduceIte, mux_shouldRedirect, hclean, ne_eq, not_true_eq_false,
      mux_lookup_other lib staticFiles r.path hr h1 h2, Bool.false_eq_true]
    split <;> rfl
  have hserve : ∀ g, (mux lib staticFiles).ServeHTTP lib r ResponseWriter.fresh g =
      FileServer lib staticFiles r ResponseWriter.fresh g := by
    intro g
    unfold ServeMux.ServeHTTP
    rw [hfind]
  refine ⟨hfind, hserve, ?_⟩
  intro hidx hopen g
  rw [hserve g]
  have hfp : filePath r = r.path := by
    unfold filePath
    rw [hasPrefix_slash_of_head _ hr]
    rfl
  have hsf : serveFile staticFiles r = .error "404 page not found" StatusNotFound := by
    unfold serveFile
    simp only [hfp, hidx, hopen, Bool.false_eq_true, ↓reduceIte]
  simp only [FileServer, hsf, FileAction.run]
  exact ⟨rfl, rfl⟩

/-- Witness of `unmatched_canonical_path_to_file_server`: `GET /api/unknown`
with one bundled file. -/
theorem unmatched_canonical_path_to_file_server_witness :
    (mux NetHTTP.headersOnly ⟨[("dist/index.html", "<html>")]⟩).findHandler
        ⟨"GET", "/api/unknown", "/api/unknown", "", [], ""⟩ =
      .handler "/" (FileServer NetHTTP.headersOnly ⟨[("dist/index.html", "<html>")]⟩) ∧
    ((mux NetHTTP.headersOnly ⟨[("dist/index.html", "<html>")]⟩).ServeHTTP NetHTTP.headersOnly
        ⟨"GET", "/api/unknown", "/api/unknown", "", [], ""⟩
        ResponseWriter.fresh initGlobals).w.result.status = 404 :=
  have h := unmatched_canonical_path_to_file_server NetHTTP.headersOnly
    ⟨[("dist/index.html", "<html>")]⟩ ⟨"GET", "/api/unknown", "/api/unknown", "", [], ""⟩
    (by decide) (by decide) (by decide) (by decide)
  ⟨h.1, (h.2.2 (by decide) (by decide) initGlobals).1⟩

/-! ### Helper lemmas: names below `dist` -/

theorem splitSlash_dist (F : String) :
    splitSlash ("dist/" ++ F).data = ['d', 'i', 's', 't'] :: splitSlash F.data := by
  have hd : ("dist/" ++ F).data = 'd' :: 'i' :: 's' :: 't' :: '/' :: F.data := by
    simp [String.data_append]
  rw [hd]
  have h0 : splitSlash ('/' :: F.data) = [] :: splitSlash F.data := by simp [splitSlash]
  have ht : splitSlash ('t' :: '/' :: F.data) = ['t'] :: splitSlash F.data := by
    rw [splitSlash, h0]; simp
  have hs : splitSlash ('s' :: 't' :: '/' :: F.data) = ['s', 't'] :: splitSlash F.data := by
    rw [splitSlash, ht]; simp
  have hi : splitSlash ('i' :: 's' :: 't' :: '/' :: F.data)
      = ['i', 's', 't'] :: splitSlash F.data := by
    rw [splitSlash, hs]; simp
  rw [splitSlash, hi]; simp

theorem valid_elems_of_validPath (name : String) (hv : validPath name = true)
    (hdot : name ≠ ".") : (splitSlash name.data).all validElem = true := by
  unfold validPath at hv
  have : (name == ".") = false := beq_false_of_ne hdot
  rw [this] at hv
  simpa using hv

theorem dist_ne_dot (F : String) : "dist/" ++ F ≠ "." := by
  intro h
  have hd := congrArg String.data h
  simp [String.data_append] at hd

theorem data_ne_nil_of_valid (l : List Char) (h : (splitSlash l).all validElem = true) :
    l ≠ [] := by
  intro h0
  subst h0
  simp [splitSlash, validElem] at h

theorem ne_dot_of_valid (F : String) (h : (splitSlash F.data).all validElem = true) :
    F ≠ "." := by
  intro h0
  subst h0
  revert h
  decide

theorem serveFile_of_valid (fsys : EmbedFS) (r : Request) (n : String)
    (hp : r.path = "/" ++ n) (hn : (splitSlash n.data).all validElem = true)
    (hidx : hasSuffix r.path "/index.html" = false) :
    serveFile fsys r =
      match fsys.files.find? (fun f => f.1 == n) with
      | some f => .content n f.2
      | none =>
        if fsys.files.any (fun f => (n.data ++ ['/']).isPrefixOf f.1.data) then
          .redirect (pathBase r.path ++ "/")
        else .error "404 page not found" StatusNotFound := by
  have hnn := data_ne_nil_of_valid _ hn
  have hdata : r.path = String.mk ('/' :: n.data) := by
    rw [hp]; rfl
  have hhead : r.path.data.head? = some '/' := by rw [hdata]; rfl
  have hfp : filePath r = r.path := by
    unfold filePath
    rw [hasPrefix_slash_of_head _ hhead]
    rfl
  have hclean : pathClean r.path = r.path := by
    rw [hdata]
    exact pathClean_rooted_valid _ hn
  have hname : httpFSName r.path = n := by
    unfold httpFSName
    have h1 : r.path ≠ "/" := by
      intro h
      rw [hdata] at h
      have := congrArg String.data h
      simp at this
      exact hnn this
    rw [if_neg h1, hasPrefix_slash_of_head _ hhead]
    simp [hdata]
  have hlast : r.path.data.getLast? ≠ some '/' := by
    have hl := getLast?_ne_slash_of_valid _ hn
    rw [hdata]
    cases hc : n.data with
    | nil => exact absurd hc hnn
    | cons c cs =>
      rw [hc] at hl
      simpa [List.getLast?_cons_cons] using hl
  have hvalid : validPath n = true := by
    unfold validPath
    rw [hn]
    simp
  have hdot := ne_dot_of_valid n hn
  unfold serveFile
  simp only [hfp, hidx, hclean, httpFSOpen, hname, EmbedFS.Open, hvalid, hdot,
    Bool.false_eq_true, ↓reduceIte, Bool.not_true]
  cases hf : fsys.files.find? (fun f => f.1 == n) with
  | some f =>
    simp [hlast]
  | none =>
    by_cases hany : (fsys.files.any fun f => (n.data ++ ['/']).isPrefixOf f.1.data) = true
    · simp [hany, hlast]
    · simp [hany]

theorem slash_dist_eq (F : String) : "/dist/" ++ F = "/" ++ ("dist/" ++ F) := by
  apply String.ext
  simp [String.data_append]

theorem serveFile_index (fsys : EmbedFS) (r : Request) (hhead : r.path.data.head? = some '/')
    (hidx : hasSuffix r.path "/index.html" = true) : serveFile fsys r = .redirect "./" := by
  have hfp : filePath r = r.path := by
    unfold filePath
    rw [hasPrefix_slash_of_head _ hhead]
    rfl
  unfold serveFile
  simp only [hfp, hidx, ↓reduceIte]

/-- C10, as stated, fails in both directions.  With `dist/index.html`
bundled, the request path `/dist/index.html` is not answered with that file
but with a redirect to `./`.  With `dist/app.js` and `dist/dist/app.js`
bundled, take `F = dist/app.js`: the request path `/F` is answered with the
bundled file `dist/app.js`. -/
theorem dist_paths_counterexample :
    serveFile ⟨[("dist/index.html", "<html>")]⟩
        ⟨"GET", "/dist/index.html", "/dist/index.html", "", [], ""⟩ = .redirect "./" ∧
    ("dist/" ++ "dist/app.js", "nested") ∈
        (⟨[("dist/app.js", "top"), ("dist/dist/app.js", "nested")]⟩ : EmbedFS).files ∧
    serveFile ⟨[("dist/app.js", "top"), ("dist/dist/app.js", "nested")]⟩
        ⟨"GET", "/dist/app.js", "/" ++ "dist/app.js", "", [], ""⟩ =
      .content "dist/app.js" "top" :=
  ⟨by decide, by decide, by decide⟩

/-- C10, amended: the file server registered under `/` is the one over
`staticFiles` itself, whose files all lie below `dist`.  For every bundled
file `dist/F`: the request path `/dist/F` is answered with the content of a
bundled file of that name, unless the path ends in `/index.html`, in which
case the file server redirects to `./`; and the request path `/F` is not
answered with the content of any bundled file, provided `F` does not itself
begin with `dist/`. -/
theorem file_server_rooted_at_embed_top (lib : NetHTTP) (staticFiles : EmbedFS)
    (hfs : staticFiles.EmbeddedUnderDist) (F data : String)
    (hmem : ("dist/" ++ F, data) ∈ staticFiles.files) (r : Request) :
    (mux lib staticFiles).lookup "/" = some ("/", FileServer lib staticFiles) ∧
    (r.path = "/dist/" ++ F → hasSuffix r.path "/index.html" = false →
      ∃ d, ("dist/" ++ F, d) ∈ staticFiles.files ∧
        serveFile staticFiles r = .content ("dist/" ++ F) d) ∧
    (r.path = "/dist/" ++ F → hasSuffix r.path "/index.html" = true →
      serveFile staticFiles r = .redirect "./") ∧
    (r.path = "/" ++ F → hasPrefix F "dist/" = false →
      ∀ name d, serveFile staticFiles r ≠ .content name d) := by
  have hv : (splitSlash ("dist/" ++ F).data).all validElem = true :=
    valid_elems_of_validPath _ (hfs _ hmem).1 (dist_ne_dot F)
  have hvF : (splitSlash F.data).all validElem = true := by
    rw [splitSlash_dist, List.all_cons] at hv
    exact (Bool.and_eq_true _ _ ▸ hv).2
  refine ⟨rfl, ?_, ?_, ?_⟩
  · intro hp hidx
    rw [slash_dist_eq] at hp
    rw [serveFile_of_valid staticFiles r _ hp hv hidx]
    cases hf : staticFiles.files.find? (fun f => f.1 == "dist/" ++ F) with
    | some f =>
      have hname : f.1 = "dist/" ++ F := by
        have := List.find?_some hf
        simpa using this
      have hin : f ∈ staticFiles.files := List.mem_of_find?_eq_some hf
      refine ⟨f.2, ?_, rfl⟩
      rw [← hname]
      exact hin
    | none =>
      have := List.find?_eq_none.1 hf _ hmem
      simp at this
  · intro hp hidx
    apply serveFile_index _ _ _ hidx
    rw [hp, slash_dist_eq]
    rfl
  · intro hp hpre name d
    have hnone : staticFiles.files.find? (fun f => f.1 == F) = none := by
      rw [List.find?_eq_none]
      intro f hf hfe
      have h1 : f.1 = F := by simpa using hfe
      have h2 := (hfs f hf).2
      rw [h1, hpre] at h2
      exact Bool.false_ne_true h2
    cases hidx : hasSuffix r.path "/index.html" with
    | true =>
      rw [serveFile_index _ _ (by rw [hp]; rfl) hidx]
      intro h
      cases h
    | false =>
      rw [serveFile_of_valid staticFiles r _ hp hvF hidx, hnone]
      simp only
      split <;> intro h <;> cases h

/-- Witness of `file_server_rooted_at_embed_top`: the bundle of
`dist/index.html` and `dist/app.js`, the file `dist/app.js` and the request
`GET /dist/app.js`. -/
theorem file_server_rooted_at_embed_top_witness :
    ∃ d, ("dist/" ++ "app.js", d) ∈
        (⟨[("dist/index.html", "<html>"), ("dist/app.js", "js")]⟩ : EmbedFS).files ∧
      serveFile ⟨[("dist/index.html", "<html>"), ("dist/app.js", "js")]⟩
        ⟨"GET", "/dist/app.js", "/dist/" ++ "app.js", "", [], ""⟩ =
        .content ("dist/" ++ "app.js") d :=
  (file_server_rooted_at_embed_top NetHTTP.headersOnly
    ⟨[("dist/index.html", "<html>"), ("dist/app.js", "js")]⟩
    (by unfold EmbedFS.EmbeddedUnderDist; decide) "app.js" "js" (by decide)
    ⟨"GET", "/dist/app.js", "/dist/" ++ "app.js", "", [], ""⟩).2.1 rfl (by decide)

end Backend
